import Mathlib

/-!
Shallow embedding of the speaker-continuity subsystem of the diarization
service (`backend/diarization_service/`): the session speaker store and
identity resolver (`speaker_tracker.py`), the merger
(`AudioProcessor._merge_results`), the orchestrator
(`AudioProcessor.process_audio`) and the `/inference` endpoint (`main.py`).

Numeric conventions: Python floats are modelled exactly as rationals (`ℚ`).
A cosine-similarity value involves a square root and is irrational in
general; every use the code makes of such a value is a comparison (`>`,
`>=` against another similarity or the constants `0.0` / `0.60`), so each
similarity is represented by its image under the strictly monotone map
x ↦ x * |x| (its "signed square").  This map fixes 0, sends 0.60 to 0.36
and fixes 1, and it preserves every comparison the code performs, so the
control flow of the embedded resolver agrees with the source exactly.
-/

namespace Diarization

/-- First-match lookup in an insertion-ordered association list
(Python `dict` read access / `dict.get`). -/
def dictGet {α : Type} (d : List (String × α)) (k : String) : Option α :=
  match d with
  | [] => none
  | (k', v) :: rest => if k' = k then some v else dictGet rest k

/-- Python `dict` assignment: overwrite in place when the key exists,
append otherwise. -/
def dictSet {α : Type} (d : List (String × α)) (k : String) (v : α) :
    List (String × α) :=
  match d with
  | [] => [(k, v)]
  | (k', v') :: rest => if k' = k then (k', v) :: rest else (k', v') :: dictSet rest k v

/-- Python `del d[k]`, tolerating an absent key (the source guards its
deletes with membership tests). -/
def dictErase {α : Type} (d : List (String × α)) (k : String) : List (String × α) :=
  match d with
  | [] => []
  | (k', v') :: rest => if k' = k then rest else (k', v') :: dictErase rest k

/-- `np.dot` on float vectors, modelled over `ℚ`. -/
def dotProd (a b : List ℚ) : ℚ := (List.zipWith (fun x y => x * y) a b).sum

/-- Squared euclidean norm: `np.linalg.norm(a) ** 2`.  The zero tests in
`cosine_similarity` satisfy `np.linalg.norm(a) == 0` iff `normSq a = 0`. -/
def normSq (a : List ℚ) : ℚ := dotProd a a

/-- `SpeakerTracker.cosine_similarity`, represented by its signed square:
if either norm is zero the code returns `0.0` (signed square `0`); otherwise
the value `dot/(‖a‖·‖b‖)` is represented by `dot·|dot| / (‖a‖²·‖b‖²)`. -/
def signedSqCos (a b : List ℚ) : ℚ :=
  if normSq a = 0 ∨ normSq b = 0 then 0
  else dotProd a b * |dotProd a b| / (normSq a * normSq b)

/-- Componentwise sum of a non-empty list of equal-length vectors
(the summation inside `np.mean(vs, axis=0)`). -/
def vecSum : List (List ℚ) → List ℚ
  | [] => []
  | [v] => v
  | v :: rest => List.zipWith (fun x y => x + y) v (vecSum rest)

/-- `np.mean(vs, axis=0)`. -/
def vecMean (vs : List (List ℚ)) : List ℚ :=
  (vecSum vs).map (fun x => x / (vs.length : ℚ))

/-- `SpeakerProfile` from `speaker_tracker.py`. -/
structure SpeakerProfile where
  speaker_id : String
  embeddings : List (List ℚ)
  total_duration : ℚ
  chunk_count : ℕ
deriving Repr, DecidableEq

/-- `SpeakerProfile.centroid`: mean embedding, or `none` when the list is
empty. -/
def SpeakerProfile.centroid (p : SpeakerProfile) : Option (List ℚ) :=
  if p.embeddings.isEmpty then none else some (vecMean p.embeddings)

/-- `SpeakerProfile.add_embedding`: append the observation, accumulate
duration and chunk count, and keep only the last 50 embeddings
(`self.embeddings[-50:]`). -/
def SpeakerProfile.add_embedding (p : SpeakerProfile) (e : List ℚ) (dur : ℚ) :
    SpeakerProfile :=
  let es := p.embeddings ++ [e]
  { p with
    embeddings := if 50 < es.length then es.drop (es.length - 50) else es
    total_duration := p.total_duration + dur
    chunk_count := p.chunk_count + 1 }

/-- A session's profiles: the Python dict `speaker_id → SpeakerProfile`,
insertion-ordered. -/
abbrev Session := List (String × SpeakerProfile)

/-- One `.npz` snapshot: named numpy arrays, each a rational vector. -/
abbrev DataFile := List (String × List ℚ)

/-- `SessionSpeakerStore`: the in-memory session dict plus the optional
snapshot directory (one file per session id). -/
structure Store where
  sessions : List (String × Session)
  disk : List (String × DataFile)
  persist : Bool
deriving Repr, DecidableEq

/-- Python `str.endswith`. -/
def strEndsWith (s suf : String) : Bool := suf.data.isSuffixOf s.data

/-- Fuelled worker for `replaceAll`; the fuel is an upper bound on the
length of the subject string. -/
def replaceAllAux (pat rep : List Char) : ℕ → List Char → List Char
  | 0, s => s
  | _ + 1, [] => []
  | fuel + 1, c :: rest =>
    if pat ≠ [] ∧ pat.isPrefixOf (c :: rest) then
      rep ++ replaceAllAux pat rep fuel ((c :: rest).drop pat.length)
    else
      c :: replaceAllAux pat rep fuel rest

/-- Python `str.replace(pat, rep)` for non-empty `pat`: replace all
non-overlapping occurrences, scanning left to right. -/
def replaceAll (s pat rep : String) : String :=
  ⟨replaceAllAux pat.data rep.data s.data.length s.data⟩

/-- `key.replace("_centroid", "")`, the id recovery in `_load_session`. -/
def parseId (key : String) : String := replaceAll key "_centroid" ""

/-- Python `int(x)` applied to a float: truncation toward zero. -/
def intOfRat (q : ℚ) : ℤ := q.num.tdiv (q.den : ℤ)

/-- The profile `_load_session` rebuilds for one speaker id: embeddings
restart from the singleton `[centroid]`; `duration` and `count` fall back
to `[0.0]` / `[1]` when their arrays are missing. -/
def loadedProfile (data : DataFile) (id : String) : SpeakerProfile :=
  { speaker_id := id
    embeddings := [(dictGet data (id ++ "_centroid")).getD []]
    total_duration := ((dictGet data (id ++ "_duration")).getD [0]).headD 0
    chunk_count := (intOfRat (((dictGet data (id ++ "_count")).getD [1]).headD 1)).toNat }

/-- One iteration of the speaker-restore loop of `_load_session`: skip the
id when its centroid array is missing, otherwise install the restored
profile. -/
def pfStep (data : DataFile) (profiles : Session) (id : String) : Session :=
  match dictGet data (id ++ "_centroid") with
  | none => profiles
  | some _ => dictSet profiles id (loadedProfile data id)

/-- Body of `SessionSpeakerStore._load_session`: rebuild profiles from one
snapshot.  Speaker ids are the keys ending in `"_centroid"` with that
suffix removed (the source collects them in a `set`, whose iteration order
is unspecified; we keep a deduplicated deterministic order, the only
property ever used being the resulting key set). -/
def parseProfiles (data : DataFile) : Session :=
  (((data.filter (fun kv => strEndsWith kv.1 "_centroid")).map
      (fun kv => parseId kv.1)).dedup).foldl (pfStep data) []

/-- `SessionSpeakerStore._load_session`: when persistence is on and a
snapshot exists, install the parsed profiles; otherwise leave the store
unchanged (a failed load never propagates). -/
def load_session (st : Store) (sid : String) : Store :=
  if st.persist then
    match dictGet st.disk sid with
    | none => st
    | some data => { st with sessions := dictSet st.sessions sid (parseProfiles data) }
  else st

/-- `SessionSpeakerStore.get_session`: get or create, lazily loading from
disk on first access. -/
def get_session (st : Store) (sid : String) : Session × Store :=
  match dictGet st.sessions sid with
  | some s => (s, st)
  | none =>
    let st1 := if st.persist then load_session st sid else st
    match dictGet st1.sessions sid with
    | some s => (s, st1)
    | none => ([], { st1 with sessions := dictSet st1.sessions sid [] })

/-- Python `f"{n:02d}"`: decimal, left-padded with zeros to at least two
digits (numbers of three or more digits are printed in full). -/
def pad2 (n : ℕ) : String := if n < 10 then "0" ++ toString n else toString n

/-- The shape of every identifier produced by `get_next_speaker_id`. -/
def speakerIdStr (n : ℕ) : String := "SPEAKER_" ++ pad2 n

/-- `SessionSpeakerStore.get_next_speaker_id`: format the session's current
profile-count; the session may be created by the embedded `get_session`. -/
def get_next_speaker_id (st : Store) (sid : String) : String × Store :=
  let gs := get_session st sid
  (speakerIdStr gs.1.length, gs.2)

/-- `SessionSpeakerStore.add_speaker`: create the profile when absent, then
`add_embedding`. -/
def add_speaker (st : Store) (sid speaker_id : String) (e : List ℚ) (dur : ℚ) :
    Store :=
  let gs := get_session st sid
  let p := (dictGet gs.1 speaker_id).getD
    { speaker_id := speaker_id, embeddings := [], total_duration := 0, chunk_count := 0 }
  { gs.2 with
    sessions := dictSet gs.2.sessions sid (dictSet gs.1 speaker_id (p.add_embedding e dur)) }

/-- The snapshot `save_session` writes: per speaker with a defined centroid,
the three arrays `<id>_centroid`, `<id>_duration`, `<id>_count`. -/
def snapshotOf (profiles : Session) : DataFile :=
  profiles.flatMap (fun ip =>
    match ip.2.centroid with
    | none => []
    | some c =>
      [(ip.1 ++ "_centroid", c),
       (ip.1 ++ "_duration", [ip.2.total_duration]),
       (ip.1 ++ "_count", [(ip.2.chunk_count : ℚ)])])

/-- `SessionSpeakerStore.save_session`: no-op when persistence is off or
the session is empty; otherwise (re)write the session's snapshot file. -/
def save_session (st : Store) (sid : String) : Store :=
  if st.persist then
    let gs := get_session st sid
    if gs.1.isEmpty then gs.2
    else { gs.2 with disk := dictSet gs.2.disk sid (snapshotOf gs.1) }
  else st

/-- The first statement of `SessionSpeakerStore.clear_session`
(`del self.sessions[session_id]`): drop the session from memory, leaving
any snapshot on disk.  This is also the state after a process restart. -/
def removeFromMemory (st : Store) (sid : String) : Store :=
  { st with sessions := dictErase st.sessions sid }

/-- `SessionSpeakerStore.clear_session`: drop the session from memory and,
when persistence is on, delete its snapshot file as well. -/
def clear_session (st : Store) (sid : String) : Store :=
  let st1 := removeFromMemory st sid
  if st1.persist then { st1 with disk := dictErase st1.disk sid } else st1

/-- The loop body of `find_matching_speaker`: skip a profile without a
centroid, otherwise update the best match on strict improvement
(`similarity > best_similarity`). -/
def fmStep (e : List ℚ) (best : Option String × ℚ) (ip : String × SpeakerProfile) :
    Option String × ℚ :=
  match ip.2.centroid with
  | none => best
  | some c => if best.2 < signedSqCos e c then (some ip.1, signedSqCos e c) else best

/-- The scan inside `find_matching_speaker`: best-similarity fold over the
session's profiles starting from the accumulator `(None, 0.0)`. -/
def findBest (sess : Session) (e : List ℚ) : Option String × ℚ :=
  sess.foldl (fmStep e) (none, 0)

/-- `SpeakerTracker.find_matching_speaker` (similarities represented by
their signed squares). -/
def find_matching_speaker (st : Store) (sid : String) (e : List ℚ) :
    (Option String × ℚ) × Store :=
  let gs := get_session st sid
  (findBest gs.1 e, gs.2)

/-- One diarization turn; the field `stop` models the Python key `"end"`
(a Lean keyword). -/
structure Turn where
  speaker : String
  start : ℚ
  stop : ℚ
deriving Repr, DecidableEq

/-- The grouping of turns by local label in `assign_speakers`
(`local_speaker_turns`): buckets in order of first occurrence, each bucket
keeping the original turn order. -/
def groupLabels (turns : List Turn) : List (String × List Turn) :=
  turns.foldl (fun acc t =>
    if acc.any (fun b => b.1 == t.speaker) then
      acc.map (fun b => if b.1 = t.speaker then (b.1, b.2 ++ [t]) else b)
    else acc ++ [(t.speaker, [t])]) []

/-- Python `max(turns, key=lambda t: t["end"] - t["start"])`: the first
maximum wins.  The `[]` case is unreachable for the non-empty buckets
produced by `groupLabels`; it returns a dummy turn. -/
def maxByDuration : List Turn → Turn
  | [] => { speaker := "", start := 0, stop := 0 }
  | t :: rest =>
    rest.foldl (fun best x => if best.stop - best.start < x.stop - x.start then x else best) t

/-- Python truthiness of the optional `num_speakers` hint
(`None` and `0` are falsy). -/
def hintTruthy : Option ℕ → Bool
  | none => false
  | some k => k != 0

/-- The numeric value of the hint (only read when `hintTruthy`). -/
def hintVal : Option ℕ → ℕ
  | none => 0
  | some k => k

/-- `SPEAKER_MATCH_THRESHOLD = 0.60`, as a signed square: `0.36 = 9/25`. -/
def matchThresholdSq : ℚ := 9 / 25

/-- `MIN_DURATION_TO_PERSIST = 1.5`. -/
def minDurationToPersist : ℚ := 3 / 2

/-- One iteration of the bucket loop of `SpeakerTracker.assign_speakers`
(speaker_tracker.py lines 329–381), threading the label mapping and the
store.  `oracle` is `extract_embedding` on the chunk's audio file. -/
def processBucket (oracle : ℚ → ℚ → Option (List ℚ)) (sid : String) (hint : Option ℕ)
    (acc : List (String × String) × Store) (bucket : String × List Turn) :
    List (String × String) × Store :=
  let mapping := acc.1
  let st := acc.2
  let label := bucket.1
  let bt := maxByDuration bucket.2
  let dur := bt.stop - bt.start
  if dur < 1/2 then (dictSet mapping label label, st)
  else
    match oracle bt.start bt.stop with
    | none => (dictSet mapping label label, st)
    | some e =>
      let fm := find_matching_speaker st sid e
      let matchId := fm.1.1
      let sim := fm.1.2
      let st1 := fm.2
      if matchId.isSome ∧ matchThresholdSq ≤ sim then
        let st2 :=
          if minDurationToPersist ≤ dur then add_speaker st1 sid (matchId.getD "") e dur
          else st1
        (dictSet mapping label (matchId.getD ""), st2)
      else
        let gp := get_session st1 sid
        if hintTruthy hint ∧ hintVal hint ≤ gp.1.length then
          match matchId with
          | some mid => (dictSet mapping label mid, gp.2)
          | none => (dictSet mapping label "SPEAKER_00", gp.2)
        else
          let gn := get_next_speaker_id gp.2 sid
          let st4 :=
            if minDurationToPersist ≤ dur then add_speaker gn.2 sid gn.1 e dur
            else gn.2
          (dictSet mapping label gn.1, st4)

/-- `SpeakerTracker.assign_speakers`.  `avail` is `self.is_available`. -/
def assign_speakers (avail : Bool) (st : Store) (sid : String)
    (oracle : ℚ → ℚ → Option (List ℚ)) (turns : List Turn) (hint : Option ℕ) :
    List Turn × Store :=
  if ¬avail ∨ turns.isEmpty then (turns, st)
  else
    let r := (groupLabels turns).foldl (processBucket oracle sid hint) ([], st)
    let out := turns.map (fun t => { t with speaker := (dictGet r.1 t.speaker).getD t.speaker })
    (out, save_session r.2 sid)

/-- Total `chunk_count` over one session's profiles.  Every `add_speaker`
call increases it by exactly one, which makes "an upsert happened"
observable independently of the 50-embedding cap. -/
def chunkSum (st : Store) (sid : String) : ℕ :=
  (((dictGet st.sessions sid).getD []).map (fun ip => ip.2.chunk_count)).sum

/-- One Whisper transcription segment; `stop` models the key `"end"`. -/
structure Seg where
  text : String
  start : ℚ
  stop : ℚ
deriving Repr, DecidableEq

/-- One merged output segment. -/
structure MergedSeg where
  text : String
  start : ℚ
  stop : ℚ
  speaker : String
deriving Repr, DecidableEq

/-- Python `str.strip()`: drop whitespace from both edges. -/
def pyStrip (s : String) : String :=
  ⟨((s.data.dropWhile Char.isWhitespace).reverse.dropWhile Char.isWhitespace).reverse⟩

/-- `max(0.0, min(seg_end, turn_end) - max(seg_start, turn_start))`. -/
def overlapDur (s e ts te : ℚ) : ℚ := max 0 (min e te - max s ts)

/-- The speaker-selection loop of `_merge_results`: strict-improvement scan
starting from `("UNKNOWN", 0.0)`. -/
def bestSpeakerAux (s e : ℚ) : List Turn → String × ℚ → String × ℚ
  | [], acc => acc
  | t :: rest, acc =>
    if acc.2 < overlapDur s e t.start t.stop then
      bestSpeakerAux s e rest (t.speaker, overlapDur s e t.start t.stop)
    else bestSpeakerAux s e rest acc

/-- `AudioProcessor._merge_results` (processor.py lines 159–214).  Note the
empty-turn branch returns `{**seg, "speaker": "UNKNOWN"}`, without
stripping the text. -/
def merge_results (whisperSegs : List Seg) (turns : List Turn) : List MergedSeg :=
  if turns.isEmpty then
    whisperSegs.map (fun seg =>
      { text := seg.text, start := seg.start, stop := seg.stop, speaker := "UNKNOWN" })
  else
    whisperSegs.map (fun seg =>
      let b := bestSpeakerAux seg.start seg.stop turns ("UNKNOWN", 0)
      { text := pyStrip seg.text, start := seg.start, stop := seg.stop, speaker := b.1 })

/-- The external collaborators of one `process_audio` call, as opaque
results: the Transcriber's parsed segments (`[]` also covers every
swallowed transcription error), the Diarizer's availability and turns, the
Transcoder's success flag, and the Embedder's availability and oracle. -/
structure Collab where
  whisperSegs : List Seg
  diarAvailable : Bool
  convertOk : Bool
  turns : List Turn
  trackerAvail : Bool
  oracle : ℚ → ℚ → Option (List ℚ)

/-- `AudioProcessor.process_audio` (processor.py lines 73–157).  The source
signature has no `num_speakers` parameter, and its call to
`assign_speakers` passes no hint, so the hint is `None` here. -/
def process_audio (c : Collab) (st : Store) (enableDiar : Bool)
    (sessionId : Option String) : List MergedSeg × Store :=
  if c.whisperSegs.isEmpty then ([], st)
  else
    let tr :=
      if enableDiar ∧ c.diarAvailable then
        if c.convertOk then
          if sessionId.isSome ∧ c.trackerAvail ∧ ¬c.turns.isEmpty then
            assign_speakers c.trackerAvail st (sessionId.getD "") c.oracle c.turns none
          else (c.turns, st)
        else ([], st)
      else ([], st)
    (merge_results c.whisperSegs tr.1, tr.2)

/-- Keyword parameters of `AudioProcessor.process_audio`
(processor.py lines 73–78). -/
def process_audio_params : List String := ["audio_path", "enable_diarization", "session_id"]

/-- Keyword arguments passed at the call site inside the `/inference`
handler (main.py lines 203–208). -/
def inference_call_kwargs : List String :=
  ["audio_path", "enable_diarization", "session_id", "num_speakers"]

/-- Whether the call site binds: every keyword argument must name a
parameter, else Python raises `TypeError: unexpected keyword argument`. -/
def call_binds : Bool := inference_call_kwargs.all (fun k => process_audio_params.contains k)

/-- Outcome of one `/inference` request. -/
inductive InferenceResult
  | ok (segments : List MergedSeg) (text : String)
  | httpError (status : ℕ)
deriving Repr, DecidableEq

/-- `" ".join(seg["text"] for seg in segments if seg.get("text"))`. -/
def joinTexts (segments : List MergedSeg) : String :=
  String.intercalate " " ((segments.map (fun s => s.text)).filter (fun t => t != ""))

/-- The `/inference` handler (main.py lines 150–238): 503 before
initialization; otherwise the handler invokes `process_audio` with
`inference_call_kwargs` inside a `try` whose `except` answers 500 — when
the keyword arguments do not bind, the call raises before any processing
and the handler sends 500.  `proc` stands for the segment list the
processing would produce if the call bound. -/
def inference (initialized : Bool) (proc : Unit → List MergedSeg) : InferenceResult :=
  if ¬initialized then .httpError 503
  else if call_binds then
    let segments := proc ()
    if segments.isEmpty then .ok [] ""
    else .ok segments (joinTexts segments)
  else .httpError 500

/-! ### Generic association-list lemmas -/

theorem dictGet_dictSet_self {α : Type} (d : List (String × α)) (k : String) (v : α) :
    dictGet (dictSet d k v) k = some v := by
  induction d with
  | nil => simp [dictGet, dictSet]
  | cons kv rest ih =>
    obtain ⟨k', v'⟩ := kv
    by_cases h : k' = k
    · simp [dictGet, dictSet, h]
    · simp [dictGet, dictSet, h, ih]

theorem dictGet_append_of_left_none {α : Type} (d₁ d₂ : List (String × α)) (k : String)
    (h : dictGet d₁ k = none) : dictGet (d₁ ++ d₂) k = dictGet d₂ k := by
  induction d₁ with
  | nil => simp
  | cons kv rest ih =>
    obtain ⟨k', v'⟩ := kv
    by_cases hk : k' = k
    · simp [dictGet, hk] at h
    · simp only [dictGet, if_neg hk] at h
      simp [dictGet, hk, ih h]

theorem dictGet_append {α : Type} (d₁ d₂ : List (String × α)) (k : String) :
    dictGet (d₁ ++ d₂) k = ((dictGet d₁ k).orElse (fun _ => dictGet d₂ k)) := by
  induction d₁ with
  | nil => simp [dictGet]
  | cons kv rest ih =>
    obtain ⟨k', v'⟩ := kv
    by_cases h : k' = k
    · simp [dictGet, h]
    · simp [dictGet, h, ih]

theorem dictSet_eq_append_of_get_none {α : Type} (d : List (String × α)) (k : String)
    (v : α) (h : dictGet d k = none) : dictSet d k v = d ++ [(k, v)] := by
  induction d with
  | nil => simp [dictSet]
  | cons kv rest ih =>
    obtain ⟨k', v'⟩ := kv
    by_cases hk : k' = k
    · simp [dictGet, hk] at h
    · simp [dictGet, hk] at h
      simp [dictSet, hk, ih h]

theorem dictGet_eq_none_of_not_mem {α : Type} (d : List (String × α)) (k : String)
    (h : k ∉ d.map (fun kv => kv.1)) : dictGet d k = none := by
  induction d with
  | nil => simp [dictGet]
  | cons kv rest ih =>
    obtain ⟨k', v'⟩ := kv
    simp only [List.map_cons, List.mem_cons] at h
    push_neg at h
    have hk : ¬k' = k := fun hh => h.1 hh.symm
    simp [dictGet, hk, ih h.2]

theorem dictGet_dictErase_self_of_nodup {α : Type} (d : List (String × α)) (k : String)
    (hnd : (d.map (fun kv => kv.1)).Nodup) : dictGet (dictErase d k) k = none := by
  induction d with
  | nil => simp [dictGet, dictErase]
  | cons kv rest ih =>
    obtain ⟨k', v'⟩ := kv
    simp only [List.map_cons, List.nodup_cons] at hnd
    by_cases h : k' = k
    · subst h
      simp only [dictErase, if_pos rfl]
      exact dictGet_eq_none_of_not_mem rest k' hnd.1
    · simp [dictErase, h, dictGet, ih hnd.2]

/-! ### Claim C1 -/

/-- C1: the `/inference` handler cannot run the pipeline at all — the call
site passes the keyword argument `num_speakers`, which
`AudioProcessor.process_audio` does not accept, so (once the processor is
initialized) every request raises `TypeError` inside the `try` block and is
answered with status 500, never 200. -/
theorem inference_returns_500_for_every_request :
    call_binds = false ∧
      ∀ proc : Unit → List MergedSeg,
        inference true proc = InferenceResult.httpError 500 := by
  refine ⟨by decide, fun proc => ?_⟩
  have h : call_binds = false := by decide
  simp [inference, h]

/-! ### Claim C9 -/

/-- C9: calling `assign_speakers` with an empty diarization turn list is a
no-op — the empty list is returned unchanged, the store (sessions and
disk) is untouched, and no save is performed. -/
theorem assign_speakers_empty_turns_noop (avail : Bool) (st : Store) (sid : String)
    (oracle : ℚ → ℚ → Option (List ℚ)) (hint : Option ℕ) :
    assign_speakers avail st sid oracle [] hint = ([], st) := by
  simp [assign_speakers]

/-! ### Claim C5 -/

/-- A session holding `n` profiles carrying the ids the allocator itself
issues (the state after `n` new-speaker insertions). -/
def sessionOfSize (n : ℕ) : Session :=
  (List.range n).map (fun i =>
    (speakerIdStr i,
     { speaker_id := speakerIdStr i, embeddings := [[1]], total_duration := 2,
       chunk_count := 1 }))

/-- C5 counterexample: once a session's cardinality reaches 100 the
allocator's `f"SPEAKER_{n:02d}"` format produces a three-digit suffix, and
the id issued at cardinality 100 sorts lexicographically before the id
issued at cardinality 99, so the issued ids are not two-digit and not
lexicographically increasing. -/
theorem speaker_id_overflow_breaks_format_and_order :
    (get_next_speaker_id
        { sessions := [("m", sessionOfSize 99)], disk := [], persist := false } "m").1 =
      "SPEAKER_99" ∧
    (get_next_speaker_id
        { sessions := [("m", sessionOfSize 100)], disk := [], persist := false } "m").1 =
      "SPEAKER_100" ∧
    (pad2 100).length ≠ 2 ∧
    ("SPEAKER_100" : String) < "SPEAKER_99" := by
  refine ⟨rfl, rfl, by decide,
    String.lt_iff_toList_lt.mpr (show "SPEAKER_100".toList < "SPEAKER_99".toList by decide)⟩

set_option maxHeartbeats 1000000 in
/-- C5 (amended): the allocator returns `SPEAKER_` followed by the decimal
representation of the session's current profile-mapping cardinality padded
with zeros to at least two digits; the suffix has exactly two digits, and
the ids issued in order are lexicographically strictly increasing, as long
as the cardinality stays below 100. -/
theorem speaker_id_format_monotone_below_100 :
    (∀ st sid, (get_next_speaker_id st sid).1 = speakerIdStr (get_session st sid).1.length) ∧
    (∀ n, n < 100 → (pad2 n).length = 2) ∧
    (∀ m, m < 100 → ∀ n, n < m → speakerIdStr n < speakerIdStr m) := by
  refine ⟨fun st sid => rfl, by decide, ?_⟩
  have hstep : ∀ k, k < 99 →
      (speakerIdStr k).toList < (speakerIdStr (k + 1)).toList := by
    decide
  have step : ∀ k, k < 99 → speakerIdStr k < speakerIdStr (k + 1) :=
    fun k hk => String.lt_iff_toList_lt.mpr (hstep k hk)
  intro m hm
  induction m with
  | zero => intro n hn; exact absurd hn (Nat.not_lt_zero n)
  | succ m ih =>
    intro n hn
    rcases Nat.lt_succ_iff_lt_or_eq.mp hn with h | rfl
    · exact lt_trans (ih (by omega) n h) (step m (by omega))
    · exact step n (by omega)

/-- Witness for C5 (amended) at cardinalities 3 < 5. -/
theorem speaker_id_format_monotone_below_100_witness :
    speakerIdStr 3 < speakerIdStr 5 :=
  speaker_id_format_monotone_below_100.2.2 5 (by decide) 3 (by decide)

/-! ### Concrete stores used by the C2/C3/C7 counterexamples -/

/-- An empty store without persistence. -/
def emptyStore : Store := { sessions := [], disk := [], persist := false }

/-- A session at a `num_speakers = 2` ceiling: two profiles with
orthogonal unit centroids. -/
def sessTwo : Session :=
  [("SPEAKER_00",
    { speaker_id := "SPEAKER_00", embeddings := [[1, 0, 0]], total_duration := 3,
      chunk_count := 1 }),
   ("SPEAKER_01",
    { speaker_id := "SPEAKER_01", embeddings := [[0, 1, 0]], total_duration := 3,
      chunk_count := 1 })]

/-- A store holding `sessTwo` under session id `"m"`. -/
def stTwo : Store := { sessions := [("m", sessTwo)], disk := [], persist := false }

/-- Two profiles to which the embedding `[0, 1, 1]` has similarity `0`
resp. a negative similarity. -/
def sessNeg : Session :=
  [("SPEAKER_00",
    { speaker_id := "SPEAKER_00", embeddings := [[1, 0, 0]], total_duration := 3,
      chunk_count := 1 }),
   ("SPEAKER_01",
    { speaker_id := "SPEAKER_01", embeddings := [[0, -1, 0]], total_duration := 3,
      chunk_count := 1 })]

/-- A store holding `sessNeg` under session id `"m"`. -/
def stNeg : Store := { sessions := [("m", sessNeg)], disk := [], persist := false }

/-! ### Claim C2: counterexample -/

/-- C2 counterexample: a bucket whose mapping is decided by the forced
`num_speakers` branch — representative duration `2 ≥ 1.5`, embedding
extracted, similarity `1/102 < 0.36` to both profiles, session at the
ceiling — performs no upsert at all: `assign_speakers` maps the label
(to `SPEAKER_00`) but returns the store unchanged, although the
persist-threshold condition holds. -/
theorem forced_mapping_skips_upsert_despite_long_duration :
    minDurationToPersist ≤ (2 : ℚ) - 0 ∧
    assign_speakers true stTwo "m" (fun _ _ => some [1, 1, 10])
        [{ speaker := "A", start := 0, stop := 2 }] (some 2) =
      ([{ speaker := "SPEAKER_00", start := 0, stop := 2 }], stTwo) := by
  refine ⟨by norm_num [minDurationToPersist], ?_⟩
  norm_num [assign_speakers, groupLabels, processBucket, maxByDuration,
    find_matching_speaker, get_session, load_session, dictGet, findBest, fmStep,
    signedSqCos, normSq, dotProd, SpeakerProfile.centroid, vecMean, vecSum, stTwo,
    sessTwo, minDurationToPersist, matchThresholdSq, hintTruthy, hintVal,
    get_next_speaker_id, add_speaker, save_session, dictSet, speakerIdStr, pad2]

/-! ### Claim C3: counterexample -/

/-- C3 counterexample: with two profiles in the session the recorded best
match is still `(none, 0.0)` — the embedding `[0, 1, 1]` has similarity
`0` to the first centroid and a negative similarity to the second, and the
scan records a candidate only on strictly positive improvement over `0.0`
— so under a `num_speakers = 2` ceiling the local label is mapped to the
sentinel `SPEAKER_00` even though existing profiles (candidates) exist. -/
theorem find_matching_none_on_nonempty_session :
    find_matching_speaker stNeg "m" [0, 1, 1] = ((none, 0), stNeg) ∧
    sessNeg ≠ [] ∧
    (assign_speakers true stNeg "m" (fun _ _ => some [0, 1, 1])
        [{ speaker := "A", start := 0, stop := 2 }] (some 2)).1 =
      [{ speaker := "SPEAKER_00", start := 0, stop := 2 }] := by
  refine ⟨?_, by decide, ?_⟩
  · norm_num [find_matching_speaker, get_session, dictGet, stNeg, sessNeg, findBest,
      fmStep, SpeakerProfile.centroid, vecMean, vecSum, signedSqCos, normSq, dotProd]
  · norm_num [assign_speakers, groupLabels, processBucket, maxByDuration,
      find_matching_speaker, get_session, load_session, dictGet, findBest, fmStep,
      signedSqCos, normSq, dotProd, SpeakerProfile.centroid, vecMean, vecSum, stNeg,
      sessNeg, minDurationToPersist, matchThresholdSq, hintTruthy, hintVal,
      get_next_speaker_id, add_speaker, save_session, dictSet, speakerIdStr, pad2]

/-! ### Claim C4: counterexample -/

/-- C4 counterexample: with an empty turn list the merger emits the
segment via `{**seg, "speaker": "UNKNOWN"}`, leaving the text untrimmed,
so the output text is not whitespace-trimmed at the edges as claimed. -/
theorem merge_results_empty_turns_text_not_stripped :
    merge_results [{ text := " hi ", start := 0, stop := 1 }] [] =
      [{ text := " hi ", start := 0, stop := 1, speaker := "UNKNOWN" }] ∧
    pyStrip " hi " = "hi" ∧ (" hi " : String) ≠ "hi" := by
  refine ⟨by rfl, by rfl, by decide⟩

/-! ### Claim C7 -/

/-- The collaborator bundle for the C7 scenario: transcription succeeded,
diarization is available, but the Transcoder failed. -/
def collabConvertFail : Collab :=
  { whisperSegs := [{ text := " hi ", start := 0, stop := 1 }]
    diarAvailable := true
    convertOk := false
    turns := [{ speaker := "S", start := 0, stop := 1 }]
    trackerAvail := true
    oracle := fun _ _ => none }

/-- C7 counterexample: when the Transcoder reports failure the processor
does not fail — it skips diarization and returns the transcription
segments labelled `UNKNOWN`, a successful non-empty result, so the
conversion failure alone does not make the request fail with 500. -/
theorem convert_failure_returns_unknown_success :
    process_audio collabConvertFail emptyStore true (some "m") =
      ([{ text := " hi ", start := 0, stop := 1, speaker := "UNKNOWN" }], emptyStore) ∧
    ([{ text := " hi ", start := 0, stop := 1, speaker := "UNKNOWN" }] : List MergedSeg) ≠
      [] := by
  refine ⟨by rfl, by decide⟩

/-- C7 (amended): if the Transcoder reports failure, `process_audio`
recovers — diarization is skipped and processing succeeds, returning every
transcription segment with speaker `UNKNOWN` (text passed through) and the
store untouched; no failure arises from the transcode. -/
theorem process_audio_convert_failure_recovers (c : Collab) (st : Store)
    (sessionId : Option String) (h : c.convertOk = false) :
    process_audio c st true sessionId =
      (c.whisperSegs.map (fun seg =>
        { text := seg.text, start := seg.start, stop := seg.stop,
          speaker := "UNKNOWN" }), st) := by
  unfold process_audio
  by_cases hw : c.whisperSegs.isEmpty
  · have hnil : c.whisperSegs = [] := List.isEmpty_iff.mp hw
    simp [hw, hnil]
  · by_cases hd : c.diarAvailable
    · simp [hw, hd, h, merge_results]
    · simp [hw, hd, merge_results]

/-- Witness for C7 (amended) at a concrete failing transcode. -/
theorem process_audio_convert_failure_recovers_witness :
    process_audio collabConvertFail emptyStore true none =
      ([{ text := " hi ", start := 0, stop := 1, speaker := "UNKNOWN" }], emptyStore) :=
  (process_audio_convert_failure_recovers collabConvertFail emptyStore none rfl).trans
    (by rfl)

/-! ### Scan lemmas for `findBest` -/

theorem fmStep_of_none {e : List ℚ} {acc : Option String × ℚ} {ip : String × SpeakerProfile}
    (hc : ip.2.centroid = none) : fmStep e acc ip = acc := by
  simp [fmStep, hc]

theorem fmStep_of_some {e : List ℚ} {acc : Option String × ℚ} {ip : String × SpeakerProfile}
    {c : List ℚ} (hc : ip.2.centroid = some c) :
    fmStep e acc ip =
      if acc.2 < signedSqCos e c then (some ip.1, signedSqCos e c) else acc := by
  simp [fmStep, hc]

theorem fmStep_foldl_sim_mono (e : List ℚ) (sess : Session) :
    ∀ acc : Option String × ℚ, acc.2 ≤ (sess.foldl (fmStep e) acc).2 := by
  induction sess with
  | nil => intro acc; simp
  | cons jp rest ih =>
    intro acc
    simp only [List.foldl_cons]
    have hstep : acc.2 ≤ (fmStep e acc jp).2 := by
      cases hc : jp.2.centroid with
      | none => rw [fmStep_of_none hc]
      | some c =>
        rw [fmStep_of_some hc]
        by_cases hlt : acc.2 < signedSqCos e c
        · rw [if_pos hlt]; exact le_of_lt hlt
        · rw [if_neg hlt]
    exact le_trans hstep (ih _)

theorem fmStep_foldl_cases (e : List ℚ) (sess : Session) :
    ∀ acc : Option String × ℚ,
      sess.foldl (fmStep e) acc = acc ∨
      ∃ ip ∈ sess, ∃ c, ip.2.centroid = some c ∧
        sess.foldl (fmStep e) acc = (some ip.1, signedSqCos e c) ∧
        acc.2 < signedSqCos e c := by
  induction sess with
  | nil => intro acc; left; simp
  | cons jp rest ih =>
    intro acc
    simp only [List.foldl_cons]
    cases hc : jp.2.centroid with
    | none =>
      rw [fmStep_of_none hc]
      rcases ih acc with h | ⟨ip, hip, c, hc', heq, hlt⟩
      · left; exact h
      · right; exact ⟨ip, List.mem_cons_of_mem _ hip, c, hc', heq, hlt⟩
    | some c =>
      rw [fmStep_of_some hc]
      by_cases hlt : acc.2 < signedSqCos e c
      · rw [if_pos hlt]
        rcases ih (some jp.1, signedSqCos e c) with h | ⟨ip, hip, c', hc', heq, hlt'⟩
        · right; exact ⟨jp, List.mem_cons_self _ _, c, hc, h, hlt⟩
        · right
          refine ⟨ip, List.mem_cons_of_mem _ hip, c', hc', heq, lt_trans hlt ?_⟩
          simpa using hlt'
      · rw [if_neg hlt]
        rcases ih acc with h | ⟨ip, hip, c', hc', heq, hlt'⟩
        · left; exact h
        · right; exact ⟨ip, List.mem_cons_of_mem _ hip, c', hc', heq, hlt'⟩

theorem fmStep_foldl_ge (e : List ℚ) (sess : Session) :
    ∀ acc : Option String × ℚ, ∀ ip ∈ sess, ∀ c, ip.2.centroid = some c →
      signedSqCos e c ≤ (sess.foldl (fmStep e) acc).2 := by
  induction sess with
  | nil => intro acc ip hip; exact absurd hip (List.not_mem_nil ip)
  | cons jp rest ih =>
    intro acc ip hip c hc
    simp only [List.foldl_cons]
    rcases List.mem_cons.mp hip with rfl | hmem
    · refine le_trans ?_ (fmStep_foldl_sim_mono e rest _)
      rw [fmStep_of_some hc]
      by_cases hlt : acc.2 < signedSqCos e c
      · rw [if_pos hlt]
      · rw [if_neg hlt]; exact le_of_not_lt hlt
    · exact ih _ ip hmem c hc

theorem fmStep_foldl_const (e : List ℚ) (sess : Session) :
    ∀ acc : Option String × ℚ,
      (∀ ip ∈ sess, ∀ c, ip.2.centroid = some c → signedSqCos e c ≤ acc.2) →
      sess.foldl (fmStep e) acc = acc := by
  induction sess with
  | nil => intro acc _; simp
  | cons jp rest ih =>
    intro acc h
    simp only [List.foldl_cons]
    have hstep : fmStep e acc jp = acc := by
      cases hc : jp.2.centroid with
      | none => exact fmStep_of_none hc
      | some c =>
        rw [fmStep_of_some hc,
          if_neg (not_lt.mpr (h jp (List.mem_cons_self _ _) c hc))]
    rw [hstep]
    exact ih acc (fun ip hip c hc => h ip (List.mem_cons_of_mem _ hip) c hc)

theorem get_session_of_mem (st : Store) (sid : String) (sess : Session)
    (h : dictGet st.sessions sid = some sess) : get_session st sid = (sess, st) := by
  simp [get_session, h]

/-! ### Claim C3: amended theorem -/

/-- C3 (amended): in the forced branch the local label is mapped to the
recorded candidate when there is one and to the sentinel `SPEAKER_00`
otherwise; the recorded best is `(none, 0.0)` exactly when no profile of
the session has strictly positive similarity to the embedding (which holds
for the empty session, but also for non-empty sessions in which every
similarity is `≤ 0`); when a candidate is recorded it is an existing
profile of maximal similarity, that similarity being positive. -/
theorem find_matching_speaker_spec (sess : Session) (e : List ℚ) :
    ((findBest sess e).1 = none ↔
      ∀ ip ∈ sess, ∀ c, ip.2.centroid = some c → signedSqCos e c ≤ 0) ∧
    (∀ id, (findBest sess e).1 = some id →
      ∃ ip ∈ sess, ip.1 = id ∧ ∃ c, ip.2.centroid = some c ∧
        signedSqCos e c = (findBest sess e).2 ∧ 0 < (findBest sess e).2 ∧
        ∀ jp ∈ sess, ∀ c', jp.2.centroid = some c' →
          signedSqCos e c' ≤ (findBest sess e).2) ∧
    (∀ st sid oracle mapping hint label ts,
      dictGet st.sessions sid = some sess →
      oracle (maxByDuration ts).start (maxByDuration ts).stop = some e →
      ¬((maxByDuration ts).stop - (maxByDuration ts).start < 1/2) →
      ¬((findBest sess e).1.isSome ∧ matchThresholdSq ≤ (findBest sess e).2) →
      hintTruthy hint ∧ hintVal hint ≤ sess.length →
      (processBucket oracle sid hint (mapping, st) (label, ts)).1 =
        dictSet mapping label ((findBest sess e).1.getD "SPEAKER_00")) := by
  refine ⟨⟨?_, ?_⟩, ?_, ?_⟩
  · intro hnone ip hip c hc
    rcases fmStep_foldl_cases e sess (none, 0) with heq | ⟨jp, _, c', _, heq, _⟩
    · have h2 := fmStep_foldl_ge e sess (none, 0) ip hip c hc
      rw [show sess.foldl (fmStep e) (none, 0) = findBest sess e from rfl, ] at h2
      have h0 : (findBest sess e).2 = 0 := by
        unfold findBest; rw [heq]
      unfold findBest at h2
      rw [heq] at h2
      exact h2
    · unfold findBest at hnone
      rw [heq] at hnone
      exact absurd hnone (by simp)
  · intro hall
    unfold findBest
    rw [fmStep_foldl_const e sess (none, 0) (fun ip hip c hc => hall ip hip c hc)]
  · intro id hid
    rcases fmStep_foldl_cases e sess (none, 0) with heq | ⟨ip, hip, c, hc, heq, hlt⟩
    · unfold findBest at hid
      rw [heq] at hid
      exact absurd hid (by simp)
    · have hres : findBest sess e = (some ip.1, signedSqCos e c) := heq
      refine ⟨ip, hip, ?_, c, hc, ?_, ?_, ?_⟩
      · have := hid
        rw [hres] at this
        simpa using this
      · rw [hres]
      · rw [hres]; simpa using hlt
      · intro jp hjp c' hc'
        exact fmStep_foldl_ge e sess (none, 0) jp hjp c' hc'
  · intro st sid oracle mapping hint label ts hsess horacle hdur hnm hforce
    unfold processBucket
    simp only [hdur, if_false, horacle]
    rw [show find_matching_speaker st sid e = (findBest sess e, st) from by
      simp [find_matching_speaker, get_session_of_mem st sid sess hsess]]
    simp only [if_neg hnm]
    rw [get_session_of_mem st sid sess hsess]
    simp only [if_pos hforce]
    cases hfb : (findBest sess e).1 with
    | none => simp
    | some mid => simp

/-- Witness for C3 (amended): the forced branch at the concrete store
`stNeg` maps the label to the sentinel, no candidate being recorded. -/
theorem find_matching_speaker_spec_witness :
    (processBucket (fun _ _ => some [0, 1, 1]) "m" (some 2) ([], stNeg)
        ("A", [{ speaker := "A", start := 0, stop := 2 }])).1 =
      dictSet [] "A" ((findBest sessNeg [0, 1, 1]).1.getD "SPEAKER_00") := by
  refine (find_matching_speaker_spec sessNeg [0, 1, 1]).2.2 stNeg "m"
    (fun _ _ => some [0, 1, 1]) [] (some 2) "A"
    [{ speaker := "A", start := 0, stop := 2 }] rfl rfl ?_ ?_ ?_
  · norm_num [maxByDuration]
  · norm_num [findBest, fmStep, sessNeg, SpeakerProfile.centroid, vecMean, vecSum,
      signedSqCos, normSq, dotProd, matchThresholdSq]
  · exact ⟨by norm_num [hintTruthy], by norm_num [hintVal, sessNeg]⟩

/-! ### Scan lemmas for the merger's speaker selection -/

theorem overlapDur_nonneg (s e ts te : ℚ) : 0 ≤ overlapDur s e ts te :=
  le_max_left 0 _

theorem bestSpeakerAux_sim_mono (s e : ℚ) (turns : List Turn) :
    ∀ acc : String × ℚ, acc.2 ≤ (bestSpeakerAux s e turns acc).2 := by
  induction turns with
  | nil => intro acc; simp [bestSpeakerAux]
  | cons t rest ih =>
    intro acc
    simp only [bestSpeakerAux]
    by_cases hlt : acc.2 < overlapDur s e t.start t.stop
    · rw [if_pos hlt]
      exact le_trans (le_of_lt hlt)
        (by simpa using ih (t.speaker, overlapDur s e t.start t.stop))
    · rw [if_neg hlt]
      exact ih acc

theorem bestSpeakerAux_cases (s e : ℚ) (turns : List Turn) :
    ∀ acc : String × ℚ,
      bestSpeakerAux s e turns acc = acc ∨
      ∃ t ∈ turns,
        bestSpeakerAux s e turns acc = (t.speaker, overlapDur s e t.start t.stop) ∧
        acc.2 < overlapDur s e t.start t.stop := by
  induction turns with
  | nil => intro acc; left; simp [bestSpeakerAux]
  | cons t rest ih =>
    intro acc
    simp only [bestSpeakerAux]
    by_cases hlt : acc.2 < overlapDur s e t.start t.stop
    · rw [if_pos hlt]
      rcases ih (t.speaker, overlapDur s e t.start t.stop) with h | ⟨u, hu, heq, hlt'⟩
      · right; exact ⟨t, List.mem_cons_self _ _, h, hlt⟩
      · right
        refine ⟨u, List.mem_cons_of_mem _ hu, heq, lt_trans hlt ?_⟩
        simpa using hlt'
    · rw [if_neg hlt]
      rcases ih acc with h | ⟨u, hu, heq, hlt'⟩
      · left; exact h
      · right; exact ⟨u, List.mem_cons_of_mem _ hu, heq, hlt'⟩

theorem bestSpeakerAux_ge (s e : ℚ) (turns : List Turn) :
    ∀ acc : String × ℚ, ∀ t ∈ turns,
      overlapDur s e t.start t.stop ≤ (bestSpeakerAux s e turns acc).2 := by
  induction turns with
  | nil => intro acc t htm; exact absurd htm (List.not_mem_nil t)
  | cons u rest ih =>
    intro acc t htm
    simp only [bestSpeakerAux]
    rcases List.mem_cons.mp htm with rfl | hmem
    · by_cases hlt : acc.2 < overlapDur s e t.start t.stop
      · rw [if_pos hlt]
        simpa using bestSpeakerAux_sim_mono s e rest
          (t.speaker, overlapDur s e t.start t.stop)
      · rw [if_neg hlt]
        exact le_trans (le_of_not_lt hlt) (bestSpeakerAux_sim_mono s e rest acc)
    · by_cases hlt : acc.2 < overlapDur s e u.start u.stop
      · rw [if_pos hlt]; exact ih _ t hmem
      · rw [if_neg hlt]; exact ih _ t hmem

theorem bestSpeakerAux_const (s e : ℚ) (turns : List Turn) :
    ∀ acc : String × ℚ,
      (∀ t ∈ turns, overlapDur s e t.start t.stop ≤ acc.2) →
      bestSpeakerAux s e turns acc = acc := by
  induction turns with
  | nil => intro acc _; simp [bestSpeakerAux]
  | cons t rest ih =>
    intro acc h
    simp only [bestSpeakerAux]
    rw [if_neg (not_lt.mpr (h t (List.mem_cons_self _ _)))]
    exact ih acc (fun u hu => h u (List.mem_cons_of_mem _ hu))

/-! ### Claim C4: amended theorem -/

/-- C4 (amended): the merger returns exactly one annotated segment per
input segment, in input order, with `start` and `end` unchanged; the text
is whitespace-trimmed when the turn list is non-empty and passed through
unchanged when the turn list is empty; whenever the turn list is empty or
no turn has positive overlap the output speaker is `UNKNOWN`, and whenever
some turn has positive overlap the output speaker is the label of a turn
with positive, maximal overlap. -/
theorem merge_results_spec (segs : List Seg) (turns : List Turn) :
    List.Forall₂ (fun (seg : Seg) (out : MergedSeg) =>
      out.start = seg.start ∧ out.stop = seg.stop ∧
      out.text = (if turns = [] then seg.text else pyStrip seg.text) ∧
      ((turns = [] ∨ ∀ t ∈ turns, overlapDur seg.start seg.stop t.start t.stop ≤ 0) →
        out.speaker = "UNKNOWN") ∧
      ((∃ t ∈ turns, 0 < overlapDur seg.start seg.stop t.start t.stop) →
        ∃ t ∈ turns, out.speaker = t.speaker ∧
          0 < overlapDur seg.start seg.stop t.start t.stop ∧
          ∀ u ∈ turns, overlapDur seg.start seg.stop u.start u.stop ≤
            overlapDur seg.start seg.stop t.start t.stop))
      segs (merge_results segs turns) := by
  by_cases ht : turns = []
  · subst ht
    unfold merge_results
    simp only [List.isEmpty_nil, if_true]
    rw [List.forall₂_map_right_iff, List.forall₂_same]
    intro seg _
    refine ⟨rfl, rfl, by simp, fun _ => rfl, ?_⟩
    rintro ⟨t, htm, _⟩
    exact absurd htm (List.not_mem_nil t)
  · have hne : turns.isEmpty = false := by
      cases turns with
      | nil => exact absurd rfl ht
      | cons a l => rfl
    unfold merge_results
    rw [hne]
    simp only [Bool.false_eq_true, if_false]
    rw [List.forall₂_map_right_iff, List.forall₂_same]
    intro seg _
    refine ⟨rfl, rfl, by simp [ht], ?_, ?_⟩
    · rintro (h | hall)
      · exact absurd h ht
      · show (bestSpeakerAux seg.start seg.stop turns ("UNKNOWN", 0)).1 = "UNKNOWN"
        rw [bestSpeakerAux_const seg.start seg.stop turns ("UNKNOWN", 0)
          (fun t htm => hall t htm)]
    · rintro ⟨t, htm, hpos⟩
      rcases bestSpeakerAux_cases seg.start seg.stop turns ("UNKNOWN", 0) with
        heq | ⟨u, hu, heq, hlt⟩
      · exfalso
        have hge := bestSpeakerAux_ge seg.start seg.stop turns ("UNKNOWN", 0) t htm
        rw [heq] at hge
        simp only at hge
        exact absurd (lt_of_lt_of_le hpos hge) (by simp)
      · refine ⟨u, hu, ?_, ?_, ?_⟩
        · show (bestSpeakerAux seg.start seg.stop turns ("UNKNOWN", 0)).1 = u.speaker
          rw [heq]
        · simpa using hlt
        · intro v hv
          have hge := bestSpeakerAux_ge seg.start seg.stop turns ("UNKNOWN", 0) v hv
          rw [heq] at hge
          simpa using hge

/-- Witness for C4 (amended): concrete single-segment merge against one
turn; the theorem yields a pairing of the expected length. -/
theorem merge_results_spec_witness :
    (merge_results [{ text := " hi ", start := 1, stop := 3 }]
        [{ speaker := "S0", start := 0, stop := 2 }]).length = 1 := by
  have h := merge_results_spec [{ text := " hi ", start := 1, stop := 3 }]
    [{ speaker := "S0", start := 0, stop := 2 }]
  simpa using h.length_eq

/-! ### Upsert accounting for the resolver -/

/-- Total `chunk_count` of a profile list. -/
def sumCounts (sess : Session) : ℕ := (sess.map (fun ip => ip.2.chunk_count)).sum

theorem chunkSum_eq_sumCounts (st : Store) (sid : String) (sess : Session)
    (h : dictGet st.sessions sid = some sess) : chunkSum st sid = sumCounts sess := by
  simp [chunkSum, sumCounts, h]

theorem sumCounts_dictSet_none (sess : Session) (id : String) (q : SpeakerProfile)
    (h : dictGet sess id = none) :
    sumCounts (dictSet sess id q) = sumCounts sess + q.chunk_count := by
  induction sess with
  | nil => simp [dictSet, sumCounts]
  | cons ip rest ih =>
    obtain ⟨k, p⟩ := ip
    by_cases hk : k = id
    · simp [dictGet, hk] at h
    · simp only [dictGet, if_neg hk] at h
      simp only [dictSet, if_neg hk, sumCounts, List.map_cons, List.sum_cons]
      have := ih h
      simp only [sumCounts] at this
      omega

theorem sumCounts_dictSet_some (sess : Session) (id : String) (p q : SpeakerProfile)
    (h : dictGet sess id = some p) :
    sumCounts (dictSet sess id q) + p.chunk_count = sumCounts sess + q.chunk_count := by
  induction sess with
  | nil => simp [dictGet] at h
  | cons ip rest ih =>
    obtain ⟨k, p'⟩ := ip
    by_cases hk : k = id
    · simp only [dictGet, if_pos hk] at h
      obtain rfl : p' = p := by injection h
      simp only [dictSet, if_pos hk, sumCounts, List.map_cons, List.sum_cons]
      omega
    · simp only [dictGet, if_neg hk] at h
      simp only [dictSet, if_neg hk, sumCounts, List.map_cons, List.sum_cons]
      have := ih h
      simp only [sumCounts] at this
      omega

theorem add_embedding_chunk_count (p : SpeakerProfile) (e : List ℚ) (dur : ℚ) :
    (p.add_embedding e dur).chunk_count = p.chunk_count + 1 := rfl

theorem chunkSum_add_speaker (st : Store) (sid id : String) (e : List ℚ) (dur : ℚ)
    (sess : Session) (h : dictGet st.sessions sid = some sess) :
    chunkSum (add_speaker st sid id e dur) sid = chunkSum st sid + 1 := by
  unfold add_speaker
  rw [get_session_of_mem st sid sess h]
  simp only [chunkSum, dictGet_dictSet_self, Option.getD_some, h]
  cases hid : dictGet sess id with
  | none =>
    simp only [Option.getD_none]
    have hs := sumCounts_dictSet_none sess id
      (({ speaker_id := id, embeddings := [], total_duration := 0,
          chunk_count := 0 } : SpeakerProfile).add_embedding e dur) hid
    simp only [sumCounts, add_embedding_chunk_count] at hs
    omega
  | some p0 =>
    simp only [Option.getD_some]
    have hs := sumCounts_dictSet_some sess id p0 (p0.add_embedding e dur) hid
    simp only [sumCounts, add_embedding_chunk_count] at hs
    omega

/-! ### Claim C2: amended theorem -/

/-- C2 (amended): for a bucket whose mapping is decided (representative
duration at least 0.5 s and an embedding successfully extracted), the store
upsert happens exactly when the branch is a threshold match or a fresh
allocation AND the representative duration is at least 1.5 s; in the
forced-by-hint branch no upsert happens regardless of the duration.  The
upsert is observed through the session's total `chunk_count`, which
`add_speaker` always increases by exactly one. -/
theorem processBucket_upsert_iff (oracle : ℚ → ℚ → Option (List ℚ)) (sid : String)
    (hint : Option ℕ) (mapping : List (String × String)) (st : Store) (label : String)
    (ts : List Turn) (sess : Session) (e : List ℚ)
    (hsess : dictGet st.sessions sid = some sess)
    (he : oracle (maxByDuration ts).start (maxByDuration ts).stop = some e)
    (hdur : ¬((maxByDuration ts).stop - (maxByDuration ts).start < 1 / 2)) :
    chunkSum (processBucket oracle sid hint (mapping, st) (label, ts)).2 sid =
      chunkSum st sid +
        (if ¬((findBest sess e).1.isSome ∧ matchThresholdSq ≤ (findBest sess e).2) ∧
            hintTruthy hint ∧ hintVal hint ≤ sess.length then 0
         else if minDurationToPersist ≤ (maxByDuration ts).stop - (maxByDuration ts).start
           then 1 else 0) := by
  unfold processBucket
  simp only
  rw [if_neg hdur, he]
  simp only
  rw [show find_matching_speaker st sid e = (findBest sess e, st) from by
    simp [find_matching_speaker, get_session_of_mem st sid sess hsess]]
  simp only
  by_cases hm : (findBest sess e).1.isSome ∧ matchThresholdSq ≤ (findBest sess e).2
  · have hcond : ¬(¬((findBest sess e).1.isSome ∧ matchThresholdSq ≤ (findBest sess e).2) ∧
        hintTruthy hint ∧ hintVal hint ≤ sess.length) := fun hc => hc.1 hm
    rw [if_pos hm, if_neg hcond]
    by_cases hd : minDurationToPersist ≤ (maxByDuration ts).stop - (maxByDuration ts).start
    · rw [if_pos hd, if_pos hd]
      exact chunkSum_add_speaker st sid _ e _ sess hsess
    · rw [if_neg hd, if_neg hd]
      simp
  · rw [if_neg hm]
    rw [get_session_of_mem st sid sess hsess]
    simp only
    by_cases hf : hintTruthy hint ∧ hintVal hint ≤ sess.length
    · have hcond : ¬((findBest sess e).1.isSome ∧ matchThresholdSq ≤ (findBest sess e).2) ∧
          hintTruthy hint ∧ hintVal hint ≤ sess.length := ⟨hm, hf⟩
      rw [if_pos hf, if_pos hcond]
      cases (findBest sess e).1 with
      | none => simp
      | some mid => simp
    · have hcond : ¬(¬((findBest sess e).1.isSome ∧ matchThresholdSq ≤ (findBest sess e).2) ∧
          hintTruthy hint ∧ hintVal hint ≤ sess.length) := fun hc => hf hc.2
      rw [if_neg hf, if_neg hcond]
      rw [show get_next_speaker_id st sid = (speakerIdStr sess.length, st) from by
        simp [get_next_speaker_id, get_session_of_mem st sid sess hsess]]
      simp only
      by_cases hd : minDurationToPersist ≤ (maxByDuration ts).stop - (maxByDuration ts).start
      · rw [if_pos hd, if_pos hd]
        exact chunkSum_add_speaker st sid _ e _ sess hsess
      · rw [if_neg hd, if_neg hd]
        simp

/-- Witness for C2 (amended): the concrete forced-branch run at `stTwo`
(the C2 counterexample input) performs zero upserts. -/
theorem processBucket_upsert_iff_witness :
    chunkSum (processBucket (fun _ _ => some [1, 1, 10]) "m" (some 2) ([], stTwo)
        ("A", [{ speaker := "A", start := 0, stop := 2 }])).2 "m" =
      chunkSum stTwo "m" + 0 := by
  have h := processBucket_upsert_iff (fun _ _ => some [1, 1, 10]) "m" (some 2) []
    stTwo "A" [{ speaker := "A", start := 0, stop := 2 }] sessTwo [1, 1, 10]
    rfl rfl (by norm_num [maxByDuration])
  rw [h]
  congr 1
  rw [if_pos]
  refine ⟨?_, by norm_num [hintTruthy], by norm_num [hintVal, sessTwo]⟩
  norm_num [findBest, fmStep, sessTwo, SpeakerProfile.centroid, vecMean, vecSum,
    signedSqCos, normSq, dotProd, matchThresholdSq]

/-! ### Claim C8: cosine similarity -/

theorem dotProd_comm (a b : List ℚ) : dotProd a b = dotProd b a := by
  unfold dotProd
  rw [List.zipWith_comm_of_comm (fun x y => x * y) (fun x y => mul_comm x y)]

theorem normSq_nonneg (a : List ℚ) : 0 ≤ normSq a := by
  unfold normSq dotProd
  rw [List.zipWith_same]
  apply List.sum_nonneg
  intro x hx
  obtain ⟨y, _, rfl⟩ := List.mem_map.mp hx
  exact mul_self_nonneg y

/-- Cauchy–Schwarz for the list dot product, over `ℚ`. -/
theorem dotProd_sq_le (a : List ℚ) : ∀ b : List ℚ, dotProd a b ^ 2 ≤ normSq a * normSq b := by
  induction a with
  | nil => intro b; simp [dotProd, normSq]
  | cons x xs ih =>
    intro b
    cases b with
    | nil =>
      simp only [dotProd, List.zipWith_nil_right, List.sum_nil]
      have h0 := mul_nonneg (normSq_nonneg (x :: xs)) (normSq_nonneg ([] : List ℚ))
      simp only [normSq, dotProd] at h0 ⊢
      nlinarith [h0]
    | cons y ys =>
      have hxs : 0 ≤ normSq xs := normSq_nonneg xs
      have hys : 0 ≤ normSq ys := normSq_nonneg ys
      have hih := ih ys
      have hdx : dotProd (x :: xs) (y :: ys) = x * y + dotProd xs ys := by
        simp [dotProd]
      have hnx : normSq (x :: xs) = x * x + normSq xs := by
        simp [normSq, dotProd]
      have hny : normSq (y :: ys) = y * y + normSq ys := by
        simp [normSq, dotProd]
      rw [hdx, hnx, hny]
      rcases eq_or_lt_of_le hys with hY0 | hYpos
      · have hd2 : dotProd xs ys ^ 2 ≤ 0 := by
          rw [← hY0] at hih; simpa using hih
        have hd : dotProd xs ys = 0 := by nlinarith [sq_nonneg (dotProd xs ys)]
        rw [hd, ← hY0]
        nlinarith [mul_nonneg hxs (mul_self_nonneg y)]
      · have hXYd : 0 ≤ normSq xs * normSq ys - dotProd xs ys ^ 2 := by linarith
        nlinarith [sq_nonneg (x * normSq ys - y * dotProd xs ys),
          mul_nonneg hXYd (le_of_lt hYpos), mul_nonneg hXYd (mul_self_nonneg y), hYpos]

/-- C8: `cosine_similarity` in its exact signed-square representation
(`signedSqCos a b` is the cosine value `v` mapped through the strictly
monotone bijection `v ↦ v·|v|`, so `v = 0 ↔ signedSqCos = 0`,
`v ∈ [-1,1] ↔ signedSqCos ∈ [-1,1]`, `v = 1 ↔ signedSqCos = 1`): it
returns `0` whenever either argument has zero euclidean norm
(`normSq = 0` iff the float norm is `0`), it is symmetric for all
argument lists, its value lies in `[-1, 1]`, and for `a = b` of nonzero
norm it equals `1` — all exact over the rationals. -/
theorem cosine_similarity_spec (a b : List ℚ) :
    (normSq a = 0 ∨ normSq b = 0 → signedSqCos a b = 0) ∧
    signedSqCos a b = signedSqCos b a ∧
    -1 ≤ signedSqCos a b ∧ signedSqCos a b ≤ 1 ∧
    (a = b → normSq a ≠ 0 → signedSqCos a b = 1) := by
  have habs : ∀ x y : List ℚ, abs (dotProd x y * abs (dotProd x y)) = dotProd x y ^ 2 := by
    intro x y
    rw [abs_mul, abs_abs, ← sq, sq_abs]
  have hrange : ∀ x y : List ℚ, |signedSqCos x y| ≤ 1 := by
    intro x y
    unfold signedSqCos
    by_cases h : normSq x = 0 ∨ normSq y = 0
    · rw [if_pos h]; norm_num
    · rw [if_neg h]
      push_neg at h
      have hx : 0 < normSq x := lt_of_le_of_ne (normSq_nonneg x) (Ne.symm h.1)
      have hy : 0 < normSq y := lt_of_le_of_ne (normSq_nonneg y) (Ne.symm h.2)
      have hpos : 0 < normSq x * normSq y := mul_pos hx hy
      rw [abs_div, abs_of_pos hpos, habs x y, div_le_one hpos]
      exact dotProd_sq_le x y
  refine ⟨?_, ?_, ?_, ?_, ?_⟩
  · intro h; simp [signedSqCos, h]
  · unfold signedSqCos
    by_cases h : normSq a = 0 ∨ normSq b = 0
    · rw [if_pos h, if_pos (Or.symm h)]
    · rw [if_neg h, if_neg (fun hc => h (Or.symm hc))]
      rw [dotProd_comm a b, mul_comm (normSq a) (normSq b)]
  · exact (abs_le.mp (hrange a b)).1
  · exact (abs_le.mp (hrange a b)).2
  · rintro rfl hne
    unfold signedSqCos
    rw [if_neg (fun hc => hne (hc.elim id id))]
    have ha : 0 < normSq a := lt_of_le_of_ne (normSq_nonneg a) (Ne.symm hne)
    have hd : dotProd a a = normSq a := rfl
    rw [hd, abs_of_pos ha]
    exact div_self (ne_of_gt (mul_pos ha ha))

/-- Witness for C8 at the one-dimensional vector `[1]`: the cosine of a
vector with itself is `1`. -/
theorem cosine_similarity_spec_witness : signedSqCos [(1 : ℚ)] [1] = 1 :=
  (cosine_similarity_spec [1] [1]).2.2.2.2 rfl (by norm_num [normSq, dotProd])

/-! ### Claim C10 -/

/-- C10: within one `assign_speakers` invocation, two distinct local
labels that are both unmatched (best similarity below the threshold, the
speaker limit not reached) and whose representative durations lie in
`[0.5, 1.5)` are mapped to the same newly allocated stable id — allocation
reads the session's current cardinality and no profile is inserted below
the persist threshold, so the second bucket sees the same cardinality. -/
theorem two_short_new_labels_share_id
    (st : Store) (sid : String) (sess : Session)
    (oracle : ℚ → ℚ → Option (List ℚ)) (hint : Option ℕ) (t1 t2 : Turn)
    (e1 e2 : List ℚ)
    (hsess : dictGet st.sessions sid = some sess)
    (hlab : ¬t1.speaker = t2.speaker)
    (ho1 : oracle t1.start t1.stop = some e1)
    (ho2 : oracle t2.start t2.stop = some e2)
    (hd1 : ¬(t1.stop - t1.start < 1 / 2))
    (hd1' : ¬(minDurationToPersist ≤ t1.stop - t1.start))
    (hd2 : ¬(t2.stop - t2.start < 1 / 2))
    (hd2' : ¬(minDurationToPersist ≤ t2.stop - t2.start))
    (hm1 : ¬((findBest sess e1).1.isSome ∧ matchThresholdSq ≤ (findBest sess e1).2))
    (hm2 : ¬((findBest sess e2).1.isSome ∧ matchThresholdSq ≤ (findBest sess e2).2))
    (hhint : ¬(hintTruthy hint ∧ hintVal hint ≤ sess.length)) :
    (assign_speakers true st sid oracle [t1, t2] hint).1.map (fun t => t.speaker) =
      [speakerIdStr sess.length, speakerIdStr sess.length] := by
  have hmax1 : maxByDuration [t1] = t1 := by simp [maxByDuration]
  have hmax2 : maxByDuration [t2] = t2 := by simp [maxByDuration]
  have hb1 : processBucket oracle sid hint ([], st) (t1.speaker, [t1]) =
      ([(t1.speaker, speakerIdStr sess.length)], st) := by
    unfold processBucket
    simp only [hmax1]
    rw [if_neg hd1, ho1]
    simp only
    rw [show find_matching_speaker st sid e1 = (findBest sess e1, st) from by
      simp [find_matching_speaker, get_session_of_mem st sid sess hsess]]
    simp only
    rw [if_neg hm1]
    rw [get_session_of_mem st sid sess hsess]
    simp only
    rw [if_neg hhint]
    rw [show get_next_speaker_id st sid = (speakerIdStr sess.length, st) from by
      simp [get_next_speaker_id, get_session_of_mem st sid sess hsess]]
    simp only
    rw [if_neg hd1']
    rfl
  have hb2 : processBucket oracle sid hint
      ([(t1.speaker, speakerIdStr sess.length)], st) (t2.speaker, [t2]) =
      ([(t1.speaker, speakerIdStr sess.length),
        (t2.speaker, speakerIdStr sess.length)], st) := by
    unfold processBucket
    simp only [hmax2]
    rw [if_neg hd2, ho2]
    simp only
    rw [show find_matching_speaker st sid e2 = (findBest sess e2, st) from by
      simp [find_matching_speaker, get_session_of_mem st sid sess hsess]]
    simp only
    rw [if_neg hm2]
    rw [get_session_of_mem st sid sess hsess]
    simp only
    rw [if_neg hhint]
    rw [show get_next_speaker_id st sid = (speakerIdStr sess.length, st) from by
      simp [get_next_speaker_id, get_session_of_mem st sid sess hsess]]
    simp only
    rw [if_neg hd2']
    simp [dictSet, hlab]
  have hgroup : groupLabels [t1, t2] = [(t1.speaker, [t1]), (t2.speaker, [t2])] := by
    simp [groupLabels, beq_iff_eq, hlab]
  unfold assign_speakers
  rw [if_neg (by simp)]
  simp only [hgroup, List.foldl_cons, List.foldl_nil, hb1, hb2]
  simp [dictGet, hlab]

/-- Witness for C10: an empty session, two labels of duration 1 s each,
both mapped to `SPEAKER_00`. -/
theorem two_short_new_labels_share_id_witness :
    (assign_speakers true { sessions := [("m", [])], disk := [], persist := false } "m"
        (fun _ _ => some [1])
        [{ speaker := "A", start := 0, stop := 1 },
         { speaker := "B", start := 2, stop := 3 }] none).1.map (fun t => t.speaker) =
      [speakerIdStr 0, speakerIdStr 0] := by
  have h := two_short_new_labels_share_id
    { sessions := [("m", [])], disk := [], persist := false } "m" []
    (fun _ _ => some [1]) none
    { speaker := "A", start := 0, stop := 1 } { speaker := "B", start := 2, stop := 3 }
    [1] [1] rfl (by decide) rfl rfl
    (by norm_num) (by norm_num [minDurationToPersist])
    (by norm_num) (by norm_num [minDurationToPersist])
    (by norm_num [findBest, matchThresholdSq]) (by norm_num [findBest, matchThresholdSq])
    (by norm_num [hintTruthy])
  simpa using h

/-! ### Claim C6: persistence round trip -/

theorem centroid_eq_of_ne_nil (p : SpeakerProfile) (h : p.embeddings ≠ []) :
    p.centroid = some (vecMean p.embeddings) := by
  unfold SpeakerProfile.centroid
  rw [if_neg]
  simpa [List.isEmpty_iff] using h

theorem vecMean_singleton (v : List ℚ) : vecMean [v] = v := by
  simp [vecMean, vecSum]

theorem intOfRat_natCast (n : ℕ) : intOfRat (n : ℚ) = n := by
  simp [intOfRat]

theorem string_append_ne_of_ne_left {a b : String} (s : String) (h : a ≠ b) :
    a ++ s ≠ b ++ s := by
  intro hc
  apply h
  apply String.ext
  have hd : a.data ++ s.data = b.data ++ s.data := by
    simpa using congrArg String.data hc
  exact List.append_cancel_right hd

theorem append_ne_append_of_last_ne (a b : String) {s t : String}
    (h : s.data.getLast?.isSome ∧ t.data.getLast?.isSome ∧
      s.data.getLast? ≠ t.data.getLast?) : a ++ s ≠ b ++ t := by
  intro hc
  have hd : a.data ++ s.data = b.data ++ t.data := by
    simpa using congrArg String.data hc
  obtain ⟨hs, ht, hne⟩ := h
  obtain ⟨x, hx⟩ := Option.isSome_iff_exists.mp hs
  obtain ⟨y, hy⟩ := Option.isSome_iff_exists.mp ht
  have h1 : (a.data ++ s.data).getLast? = some x := by
    rw [List.getLast?_append, hx, Option.or_some]
  have h2 : (b.data ++ t.data).getLast? = some y := by
    rw [List.getLast?_append, hy, Option.or_some]
  rw [hd, h2] at h1
  exact hne (by rw [hx, hy]; exact h1.symm)

theorem strEndsWith_append_self (a suf : String) :
    strEndsWith (a ++ suf) suf = true := by
  unfold strEndsWith
  rw [List.isSuffixOf_iff_suffix]
  simp

theorem not_strEndsWith_of_last_ne (a : String) {s t : String}
    (hs : s.data.getLast?.isSome) (ht : t.data.getLast?.isSome)
    (hne : s.data.getLast? ≠ t.data.getLast?) :
    strEndsWith (a ++ s) t = false := by
  unfold strEndsWith
  rw [Bool.eq_false_iff]
  intro hsuf
  rw [List.isSuffixOf_iff_suffix] at hsuf
  obtain ⟨u, hu⟩ := hsuf
  obtain ⟨x, hx⟩ := Option.isSome_iff_exists.mp hs
  obtain ⟨y, hy⟩ := Option.isSome_iff_exists.mp ht
  have h1 : (a ++ s).data.getLast? = some x := by
    rw [String.data_append, List.getLast?_append, hx, Option.or_some]
  have h2 : (a ++ s).data.getLast? = some y := by
    rw [← hu, List.getLast?_append, hy, Option.or_some]
  rw [h1] at h2
  exact hne (by rw [hx, hy]; exact h2)

/-- `snapshotOf` writes one centroid-key entry per profile; only those
entries survive the `"_centroid"`-suffix filter of `_load_session`. -/
theorem snapshot_filter (sess : Session) (hne : ∀ ip ∈ sess, ip.2.embeddings ≠ []) :
    (snapshotOf sess).filter (fun kv => strEndsWith kv.1 "_centroid") =
      sess.map (fun ip => (ip.1 ++ "_centroid", vecMean ip.2.embeddings)) := by
  induction sess with
  | nil => simp [snapshotOf]
  | cons jp rest ih =>
    have hcj : jp.2.centroid = some (vecMean jp.2.embeddings) :=
      centroid_eq_of_ne_nil _ (hne jp (List.mem_cons_self _ _))
    have h1 : strEndsWith (jp.1 ++ "_centroid") "_centroid" = true :=
      strEndsWith_append_self _ _
    have h2 : strEndsWith (jp.1 ++ "_duration") "_centroid" = false :=
      not_strEndsWith_of_last_ne jp.1 (by decide) (by decide) (by decide)
    have h3 : strEndsWith (jp.1 ++ "_count") "_centroid" = false :=
      not_strEndsWith_of_last_ne jp.1 (by decide) (by decide) (by decide)
    simp only [snapshotOf, List.flatMap_cons, hcj, List.filter_append,
      List.filter_cons, h1, h2, h3, List.filter_nil, List.map_cons]
    simpa [snapshotOf] using ih (fun ip hip => hne ip (List.mem_cons_of_mem _ hip))

/-- Key lookups in a snapshot: for every profile of the saved session the
three arrays are found under their exact keys. -/
theorem dictGet_snapshot (sess : Session)
    (hnd : (sess.map (fun ip => ip.1)).Nodup)
    (hne : ∀ ip ∈ sess, ip.2.embeddings ≠ []) :
    ∀ ip ∈ sess,
      dictGet (snapshotOf sess) (ip.1 ++ "_centroid") = some (vecMean ip.2.embeddings) ∧
      dictGet (snapshotOf sess) (ip.1 ++ "_duration") = some [ip.2.total_duration] ∧
      dictGet (snapshotOf sess) (ip.1 ++ "_count") = some [(ip.2.chunk_count : ℚ)] := by
  induction sess with
  | nil => intro ip hip; exact absurd hip (List.not_mem_nil ip)
  | cons jp rest ih =>
    intro ip hip
    have hcj : jp.2.centroid = some (vecMean jp.2.embeddings) :=
      centroid_eq_of_ne_nil _ (hne jp (List.mem_cons_self _ _))
    simp only [List.map_cons, List.nodup_cons] at hnd
    have hcd : ∀ a b : String, a ++ ("_centroid" : String) ≠ b ++ "_duration" :=
      fun a b => append_ne_append_of_last_ne a b ⟨by decide, by decide, by decide⟩
    have hct : ∀ a b : String, a ++ ("_centroid" : String) ≠ b ++ "_count" :=
      fun a b => append_ne_append_of_last_ne a b ⟨by decide, by decide, by decide⟩
    have hdt : ∀ a b : String, a ++ ("_duration" : String) ≠ b ++ "_count" :=
      fun a b => append_ne_append_of_last_ne a b ⟨by decide, by decide, by decide⟩
    rcases List.mem_cons.mp hip with rfl | hmem
    · refine ⟨?_, ?_, ?_⟩
      · simp [snapshotOf, List.flatMap_cons, hcj, dictGet]
      · simp [snapshotOf, List.flatMap_cons, hcj, dictGet, hcd ip.1 ip.1]
      · simp [snapshotOf, List.flatMap_cons, hcj, dictGet, hct ip.1 ip.1,
          hdt ip.1 ip.1]
    · have hji : jp.1 ≠ ip.1 := by
        intro heq
        exact hnd.1 (heq ▸ List.mem_map_of_mem (fun kv => kv.1) hmem)
      have ihh := ih hnd.2 (fun q hq => hne q (List.mem_cons_of_mem _ hq)) ip hmem
      refine ⟨?_, ?_, ?_⟩
      · simp only [snapshotOf, List.flatMap_cons, hcj]
        rw [dictGet_append_of_left_none _ _ _ (by
          simp [dictGet, string_append_ne_of_ne_left _ hji, (hcd ip.1 jp.1).symm,
            (hct ip.1 jp.1).symm])]
        exact ihh.1
      · simp only [snapshotOf, List.flatMap_cons, hcj]
        rw [dictGet_append_of_left_none _ _ _ (by
          simp [dictGet, string_append_ne_of_ne_left _ hji, hcd jp.1 ip.1,
            (hdt ip.1 jp.1).symm])]
        exact ihh.2.1
      · simp only [snapshotOf, List.flatMap_cons, hcj]
        rw [dictGet_append_of_left_none _ _ _ (by
          simp [dictGet, string_append_ne_of_ne_left _ hji, hct jp.1 ip.1,
            hdt jp.1 ip.1])]
        exact ihh.2.2

/-- The restore loop appends one `loadedProfile` per id, for fresh,
distinct ids whose centroid arrays exist. -/
theorem pfStep_foldl_build (data : DataFile) :
    ∀ (l : List String) (acc : Session),
      l.Nodup →
      (∀ id ∈ l, dictGet acc id = none) →
      (∀ id ∈ l, (dictGet data (id ++ "_centroid")).isSome) →
      l.foldl (pfStep data) acc = acc ++ l.map (fun id => (id, loadedProfile data id)) := by
  intro l
  induction l with
  | nil => intro acc _ _ _; simp
  | cons id rest ih =>
    intro acc hnd hfresh hcent
    simp only [List.foldl_cons]
    obtain ⟨c, hc⟩ := Option.isSome_iff_exists.mp (hcent id (List.mem_cons_self _ _))
    have hstep : pfStep data acc id = acc ++ [(id, loadedProfile data id)] := by
      unfold pfStep
      rw [hc]
      exact dictSet_eq_append_of_get_none acc id _ (hfresh id (List.mem_cons_self _ _))
    rw [hstep]
    simp only [List.nodup_cons] at hnd
    rw [ih (acc ++ [(id, loadedProfile data id)]) hnd.2 ?fresh
      (fun q hq => hcent q (List.mem_cons_of_mem _ hq))]
    · simp
    case fresh =>
      intro q hq
      rw [dictGet_append]
      rw [hfresh q (List.mem_cons_of_mem _ hq)]
      have hqid : ¬id = q := fun heq => hnd.1 (heq ▸ hq)
      simp [dictGet, hqid]

/-- Restoring the snapshot of a session reproduces, per speaker, the
reloaded profile `[centroid]` with the saved duration and count. -/
theorem parseProfiles_snapshot (sess : Session)
    (hnd : (sess.map (fun ip => ip.1)).Nodup)
    (hne : ∀ ip ∈ sess, ip.2.embeddings ≠ [])
    (hparse : ∀ ip ∈ sess, parseId (ip.1 ++ "_centroid") = ip.1) :
    parseProfiles (snapshotOf sess) =
      sess.map (fun ip =>
        (ip.1, { speaker_id := ip.1, embeddings := [vecMean ip.2.embeddings],
                 total_duration := ip.2.total_duration,
                 chunk_count := ip.2.chunk_count })) := by
  unfold parseProfiles
  rw [snapshot_filter sess hne]
  rw [show ((sess.map (fun ip => (ip.1 ++ "_centroid", vecMean ip.2.embeddings))).map
      (fun kv => parseId kv.1)) = sess.map (fun ip => ip.1) from by
    rw [List.map_map]
    exact List.map_congr_left (fun ip hip => hparse ip hip)]
  rw [List.dedup_eq_self.mpr hnd]
  rw [pfStep_foldl_build (snapshotOf sess) (sess.map (fun ip => ip.1)) []
    hnd (fun id _ => rfl) ?cent]
  · rw [List.nil_append, List.map_map]
    apply List.map_congr_left
    intro ip hip
    have hlk := dictGet_snapshot sess hnd hne ip hip
    simp only [Function.comp]
    unfold loadedProfile
    rw [hlk.1, hlk.2.1, hlk.2.2]
    simp [intOfRat_natCast]
  case cent =>
    intro id hid
    obtain ⟨ip, hip, rfl⟩ := List.mem_map.mp hid
    rw [(dictGet_snapshot sess hnd hne ip hip).1]
    rfl

/-- C6: for every session whose profiles each have a non-empty embedding
list (and whose speaker ids are distinct and survive the
`replace("_centroid", "")` parse — true of every allocator-issued
`SPEAKER_nn` id), saving the session, dropping it from memory (the
`del self.sessions[session_id]` statement, i.e. the clear-from-memory /
restart state) and re-fetching it through `get_session` reloads the same
speaker ids in the same order, each with centroid equal to its pre-save
centroid.  The full `clear_session` would also unlink the snapshot by
design, so the memory-only eviction is the operation the round trip is
about.  (`hdisk` rules out a stale snapshot in the one case where nothing
is saved: the empty session.) -/
theorem save_remove_reload_roundtrip (st : Store) (sid : String) (sess : Session)
    (hpersist : st.persist = true)
    (hsess : dictGet st.sessions sid = some sess)
    (hstore : (st.sessions.map (fun kv => kv.1)).Nodup)
    (hids : (sess.map (fun ip => ip.1)).Nodup)
    (hne : ∀ ip ∈ sess, ip.2.embeddings ≠ [])
    (hparse : ∀ ip ∈ sess, parseId (ip.1 ++ "_centroid") = ip.1)
    (hdisk : sess = [] → dictGet st.disk sid = none) :
    ((get_session (removeFromMemory (save_session st sid) sid) sid).1).map
        (fun ip => (ip.1, ip.2.centroid)) =
      sess.map (fun ip => (ip.1, ip.2.centroid)) := by
  by_cases hempty : sess = []
  · subst hempty
    have hsave : save_session st sid = st := by
      unfold save_session
      rw [get_session_of_mem st sid [] hsess]
      simp [hpersist]
    rw [hsave]
    have h1 : dictGet (dictErase st.sessions sid) sid = none :=
      dictGet_dictErase_self_of_nodup st.sessions sid hstore
    simp [get_session, removeFromMemory, load_session, hpersist, h1, hdisk rfl,
      dictGet_dictSet_self]
  · have hsave : save_session st sid =
        { st with disk := dictSet st.disk sid (snapshotOf sess) } := by
      unfold save_session
      rw [get_session_of_mem st sid sess hsess]
      simp [hpersist, hempty]
    rw [hsave]
    have h1 : dictGet (dictErase st.sessions sid) sid = none :=
      dictGet_dictErase_self_of_nodup st.sessions sid hstore
    have h2 : dictGet (dictSet st.disk sid (snapshotOf sess)) sid =
        some (snapshotOf sess) := dictGet_dictSet_self _ _ _
    simp only [get_session, removeFromMemory, load_session, hpersist, h1, h2,
      dictGet_dictSet_self, if_true]
    rw [parseProfiles_snapshot sess hids hne hparse]
    rw [List.map_map]
    apply List.map_congr_left
    intro ip hip
    simp only [Function.comp]
    rw [centroid_eq_of_ne_nil ip.2 (hne ip hip)]
    simp [SpeakerProfile.centroid, vecMean_singleton]

/-- A concrete two-speaker session for the C6 witness. -/
def sessRT : Session :=
  [("SPEAKER_00",
    { speaker_id := "SPEAKER_00", embeddings := [[1, 2]], total_duration := 3,
      chunk_count := 1 }),
   ("SPEAKER_01",
    { speaker_id := "SPEAKER_01", embeddings := [[0, 1], [2, 3]], total_duration := 4,
      chunk_count := 2 })]

/-- A persistence-enabled store holding `sessRT` under session id `"m"`. -/
def stRT : Store := { sessions := [("m", sessRT)], disk := [], persist := true }

/-- Witness for C6: a concrete two-speaker session round-trips. -/
theorem save_remove_reload_roundtrip_witness :
    ((get_session (removeFromMemory (save_session stRT "m") "m") "m").1).map
        (fun ip => (ip.1, ip.2.centroid)) =
      sessRT.map (fun ip => (ip.1, ip.2.centroid)) :=
  save_remove_reload_roundtrip stRT "m" sessRT rfl rfl (by decide) (by decide)
    (by decide) (by decide) (fun _ => rfl)

end Diarization
